import Mathlib

/-!
Verification development for the audio-transcription chunking pipeline
(`audio_processor.py` and `transcription_utils.py`).

Modelling conventions:
* Python floats (all times are seconds) are modelled as `ℚ`; `int(x)` for
  nonnegative `x` is `⌊x⌋`; Python `//` on ints is `Nat` division.
* A pydub `AudioSegment` is modelled as a `List ℤ` of millisecond samples:
  `len(seg)` is `List.length`, `seg[a:b]` is `(take b).drop a`,
  `AudioSegment.silent(d)` is `List.replicate d 0`, `+` is `++`.
* The external pydub `split_on_silence` call and its failure modes
  (exception, 30 s timeout) are inputs of the embedding
  (`SilenceOutcome`), since that code is a third-party library.
* Python dictionaries with `.get(key, default)` accesses are modelled as
  structures whose fields hold the value or the default.
* Code that can raise an uncaught exception returns `Option` (`none` is
  the exception escaping the function).
-/

/-! ## Transcription results (`transcription_utils.py`) -/

/-- A transcription segment (the fields the merge logic touches). -/
structure Segment where
  start : ℚ
  end_ : ℚ
  text : String
deriving DecidableEq

/-- A transcription word. -/
structure Word where
  start : ℚ
  end_ : ℚ
  word : String
deriving DecidableEq

/-- The `split_method` tag written by `AudioProcessor`. -/
inductive SplitMethod where
  | single_chunk
  | silence
  | time
  | time_fallback
deriving DecidableEq

/-- Chunk metadata dict produced by `AudioProcessor` and carried through
transcription results. -/
structure ChunkMetadata where
  chunk_index : ℕ
  start_time : ℚ
  end_time : ℚ
  duration : ℚ
  split_method : SplitMethod
  is_single_chunk : Bool := false
deriving DecidableEq

/-- One per-chunk transcription result dict as consumed by
`TranscriptionProcessor.combine_transcriptions`: `success`, `text`,
`language`, `segments`, `words`, top-level `chunk_index` and the
originating `chunk_metadata` (absent keys are their `.get` defaults). -/
structure ChunkResult where
  success : Bool
  text : String
  language : Option String
  segments : List Segment
  words : List Word
  chunk_index : ℕ
  chunk_metadata : ChunkMetadata
deriving DecidableEq

/-- The combined transcription dict returned by `combine_transcriptions`.
`failed_chunks` and `error` are `Option` because those keys are present
only on some branches. -/
structure Combined where
  text : String
  segments : List Segment
  words : List Word
  language : Option String
  total_duration : ℚ
  chunk_count : ℕ
  success : Bool
  failed_chunks : Option ℕ
  error : Option String
deriving DecidableEq

/-- Helper for `pySplit`: walk the characters, collecting the current
word (reversed) in `acc`, emitting a word at each whitespace run. -/
def wordsAux : List Char → List Char → List String
  | [], acc => if acc = [] then [] else [String.mk acc.reverse]
  | c :: cs, acc =>
    if c.isWhitespace then
      (if acc = [] then wordsAux cs [] else String.mk acc.reverse :: wordsAux cs [])
    else wordsAux cs (c :: acc)

/-- Python `str.split()` with no arguments: split on whitespace runs,
dropping empty pieces. -/
def pySplit (s : String) : List String := wordsAux s.data []

/-- Python `str.strip()`: drop leading and trailing whitespace. -/
def pyStrip (s : String) : String :=
  String.mk (((s.data.dropWhile Char.isWhitespace).reverse.dropWhile Char.isWhitespace).reverse)

/-- `' '.join(ws)`. -/
def joinWords (ws : List String) : String :=
  match ws with
  | [] => ""
  | w :: rest => rest.foldl (fun acc x => acc ++ " " ++ x) w

/-- Python `l[-n:]` for `n ≥ 1`. -/
def takeLast (n : ℕ) (l : List String) : List String := l.drop (l.length - n)

/-- The loop `for overlap_len in range(max_overlap, 0, -1)` of
`_remove_text_overlap`: first (longest) `overlap_len` with
`prev_words[-overlap_len:] == curr_words[:overlap_len]`. -/
def overlapSearch (pw cw : List String) : ℕ → Option ℕ
  | 0 => none
  | k + 1 =>
    if takeLast (k + 1) pw = cw.take (k + 1) then some (k + 1)
    else overlapSearch pw cw k

/-- `TranscriptionProcessor._remove_text_overlap`. -/
def removeTextOverlap (previous_text current_text : String) : String :=
  if previous_text = "" ∨ current_text = "" then current_text
  else
    match overlapSearch (pySplit previous_text) (pySplit current_text)
        (min (min (pySplit previous_text).length (pySplit current_text).length) 10) with
    | some k => joinWords ((pySplit current_text).drop k)
    | none => current_text

/-- Stable insertion (by `chunk_index`) used to model Python's stable
`sorted(results, key=lambda x: x.get('chunk_index', 0))`. -/
def insertByIdx (x : ChunkResult) : List ChunkResult → List ChunkResult
  | [] => [x]
  | y :: ys =>
    if x.chunk_index ≤ y.chunk_index then x :: y :: ys
    else y :: insertByIdx x ys

/-- Stable sort by `chunk_index`; extensionally equal to Python's
`sorted` with that key (both are stable sorts on the same key). -/
def sortedByIndex : List ChunkResult → List ChunkResult
  | [] => []
  | x :: xs => insertByIdx x (sortedByIndex xs)

/-- The loop body of `_combine_text`: `i` is the `enumerate` index over
the sorted results, `parts` is `combined_parts`. `none` models the
`IndexError` raised by `combined_parts[-1]` on an empty list. -/
def combineTextLoop : List ChunkResult → ℕ → List String → Option (List String)
  | [], _, parts => some parts
  | r :: rs, i, parts =>
    let text := pyStrip r.text
    if text = "" then combineTextLoop rs (i + 1) parts
    else if i = 0 then combineTextLoop rs (i + 1) (parts ++ [text])
    else
      match parts.getLast? with
      | none => none
      | some prev => combineTextLoop rs (i + 1) (parts ++ [removeTextOverlap prev text])

/-- `TranscriptionProcessor._combine_text`. -/
def combineText (results : List ChunkResult) : Option String :=
  (combineTextLoop (sortedByIndex results) 0 []).map joinWords

/-- Shift one segment by the chunk's start offset
(`adjusted_segment['start'] += chunk_start_time`, same for `end`). -/
def shiftSegment (off : ℚ) (s : Segment) : Segment :=
  { s with start := s.start + off, end_ := s.end_ + off }

/-- Shift one word by the chunk's start offset. -/
def shiftWord (off : ℚ) (w : Word) : Word :=
  { w with start := w.start + off, end_ := w.end_ + off }

/-- `TranscriptionProcessor._combine_segments`. -/
def combineSegments (results : List ChunkResult) : List Segment :=
  (sortedByIndex results).foldl
    (fun acc r => acc ++ r.segments.map (shiftSegment r.chunk_metadata.start_time)) []

/-- `TranscriptionProcessor._combine_words`. -/
def combineWords (results : List ChunkResult) : List Word :=
  (sortedByIndex results).foldl
    (fun acc r => acc ++ r.words.map (shiftWord r.chunk_metadata.start_time)) []

/-- Python `max(iterable, default=0)`. -/
def pyMax (l : List ℚ) (dflt : ℚ) : ℚ :=
  match l with
  | [] => dflt
  | x :: xs => xs.foldl max x

/-- `TranscriptionProcessor.combine_transcriptions`. `none` models the
uncaught `IndexError` escaping from `_combine_text`. -/
def combine_transcriptions (chunk_results : List ChunkResult) : Option Combined :=
  if chunk_results = [] then
    some ⟨"", [], [], none, 0, 0, false, none, none⟩
  else
    let successful_results := chunk_results.filter (fun r => r.success)
    if successful_results = [] then
      some ⟨"", [], [], none, 0, chunk_results.length, false, none,
        some "No successful transcriptions"⟩
    else
      match combineText successful_results with
      | none => none
      | some text =>
        some
          { text := text
            segments := combineSegments successful_results
            words := combineWords successful_results
            language :=
              match successful_results with
              | [] => none
              | r :: _ => r.language
            total_duration :=
              pyMax (successful_results.map (fun r => r.chunk_metadata.end_time)) 0
            chunk_count := successful_results.length
            success := true
            failed_chunks := some (chunk_results.length - successful_results.length)
            error := none }

/-! ## Audio chunking (`audio_processor.py`) -/

/-- An in-memory decoded audio stream. `samples` is the pydub
`AudioSegment` at millisecond resolution (`len(seg)` = `samples.length`);
`bytesPerMs` is `frame_rate * sample_width * channels / 1000`, so
`len(seg.raw_data) = samples.length * bytesPerMs`. -/
structure AudioStream where
  samples : List ℤ
  bytesPerMs : ℕ
deriving DecidableEq

/-- `AudioProcessor.__init__` configuration. -/
structure AudioProcessor where
  max_chunk_size_mb : ℕ := 24
  overlap_seconds : ℕ := 3
  force_time_based : Bool := false
deriving DecidableEq

/-- `len(audio_segment.raw_data)`. -/
def rawBytes (a : AudioStream) : ℕ := a.samples.length * a.bytesPerMs

/-- `self.max_chunk_size_bytes = max_chunk_size_mb * 1024 * 1024`. -/
def max_chunk_size_bytes (p : AudioProcessor) : ℕ :=
  p.max_chunk_size_mb * 1024 * 1024

/-- `len(audio_segment) / 1000.0`. -/
def totalDuration (a : AudioStream) : ℚ := (a.samples.length : ℚ) / 1000

/-- `AudioProcessor.needs_chunking`:
`len(raw_data) / (1024*1024) > max_chunk_size_mb`. -/
def needsChunking (p : AudioProcessor) (a : AudioStream) : Bool :=
  decide ((rawBytes a : ℚ) / (1024 * 1024) > (p.max_chunk_size_mb : ℚ))

/-- `estimated_chunks = max(1, int(len(raw_data) / max_chunk_size_bytes) + 1)`. -/
def estimatedChunks (p : AudioProcessor) (a : AudioStream) : ℕ :=
  max 1 (rawBytes a / max_chunk_size_bytes p + 1)

/-- `target_chunk_duration = total_duration / estimated_chunks`. -/
def targetDuration (p : AudioProcessor) (a : AudioStream) : ℚ :=
  totalDuration a / (estimatedChunks p a : ℚ)

/-- Python slice `seg[i:j]` on a millisecond-sample list. -/
def pySlice (a : List ℤ) (i j : ℕ) : List ℤ := (a.take j).drop i

/-- One audio chunk paired with its metadata dict. -/
abbrev Chunk := List ℤ × ChunkMetadata

/-- The `while start_time < total_duration` loop of
`AudioProcessor._split_by_time`. The `0 < t` conjunct is a totality
guard: for `t ≤ 0` the Python loop would not terminate, and the pipeline
only calls this with a positive target duration. -/
def splitByTimeGo (a : List ℤ) (total t : ℚ) (s : ℚ) (idx : ℕ) : List Chunk :=
  if h : 0 < t ∧ s < total then
    let e := min (s + t) total
    let start_ms := (⌊s * 1000⌋).toNat
    let end_ms := (⌊e * 1000⌋).toNat
    let c := pySlice a start_ms end_ms
    (c, { chunk_index := idx, start_time := s, end_time := e,
          duration := (c.length : ℚ) / 1000, split_method := .time }) ::
      splitByTimeGo a total t e (idx + 1)
  else []
termination_by (⌈(total - s) / t⌉).toNat
decreasing_by
  obtain ⟨ht, hs⟩ := h
  have hpos : 0 < (total - s) / t := div_pos (by linarith) ht
  have h1 : (0 : ℤ) < ⌈(total - s) / t⌉ := Int.ceil_pos.mpr hpos
  rcases le_or_lt (s + t) total with hc | hc
  · rw [min_eq_left hc]
    have h2 : (total - (s + t)) / t = (total - s) / t - 1 := by
      field_simp
      ring
    rw [h2, Int.ceil_sub_one]
    omega
  · rw [min_eq_right (le_of_lt hc)]
    simp only [sub_self, zero_div, Int.ceil_zero, Int.toNat_zero]
    omega

/-- `AudioProcessor._split_by_time`. -/
def splitByTime (a : List ℤ) (t : ℚ) : List Chunk :=
  splitByTimeGo a ((a.length : ℚ) / 1000) t 0 0

/-- Outcome of the external `pydub.silence.split_on_silence` call inside
`_split_on_silence`: an internal exception, hitting the 30-second
`SIGALRM` budget, or a normal return with a list of audio chunks. -/
inductive SilenceOutcome where
  | error
  | timeout
  | chunks (cs : List (List ℤ))

/-- The inner `for time_chunk, time_metadata in time_chunks` loop of
`_split_on_silence`: re-base each re-split piece at the running
`current_time`/`chunk_index`, tagging it `time_fallback`. Returns the
rewritten pieces together with the final counter and clock. -/
def reassignResplit : List Chunk → ℕ → ℚ → List Chunk × ℕ × ℚ
  | [], idx, cur => ([], idx, cur)
  | (c, m) :: rest, idx, cur =>
    let out := reassignResplit rest (idx + 1) (cur + m.duration)
    ((c, { chunk_index := idx, start_time := cur, end_time := cur + m.duration,
           duration := m.duration, split_method := .time_fallback }) :: out.1,
     out.2)

/-- The `for chunk in chunks` loop of `_split_on_silence` over the
chunks returned by pydub: pieces within `1.5 ×` target keep their own
duration and are tagged `silence`; oversized pieces are re-split by
`_split_by_time` and re-based. -/
def silenceAssemble (t : ℚ) : List (List ℤ) → ℕ → ℚ → List Chunk
  | [], _, _ => []
  | c :: cs, idx, cur =>
    let d : ℚ := (c.length : ℚ) / 1000
    if d ≤ t * (3 / 2) then
      (c, { chunk_index := idx, start_time := cur, end_time := cur + d,
            duration := d, split_method := .silence }) ::
        silenceAssemble t cs (idx + 1) (cur + d)
    else
      let r := reassignResplit (splitByTime c t) idx cur
      r.1 ++ silenceAssemble t cs r.2.1 r.2.2

/-- `AudioProcessor._split_on_silence`: an exception or timeout in
silence detection, or an empty chunk list, yields `[]` (the caller then
falls back to time-based splitting). -/
def splitOnSilence : SilenceOutcome → ℚ → List Chunk
  | .error, _ => []
  | .timeout, _ => []
  | .chunks cs, t => if cs = [] then [] else silenceAssemble t cs 0 0

/-- `overlap_duration = min(overlap_ms, len(chunk) // 4)`. -/
def padAmount (p : AudioProcessor) (c : List ℤ) : ℕ :=
  min (p.overlap_seconds * 1000) (c.length / 4)

/-- The body of the `for i, (chunk, metadata) in enumerate(chunks)` loop
of `_add_overlap_to_chunks` (`n` is `len(chunks)`). -/
def overlapOne (p : AudioProcessor) (n i : ℕ) (cm : Chunk) : Chunk :=
  let c := cm.1
  let m := cm.2
  if i = 0 then
    if 1 < n then
      let d := padAmount p c
      let ec := c ++ List.replicate d 0
      (ec, { m with end_time := m.end_time + (d : ℚ) / 1000,
                    duration := (ec.length : ℚ) / 1000 })
    else cm
  else if i = n - 1 then
    let d := padAmount p c
    let ec := List.replicate d 0 ++ c
    (ec, { m with start_time := m.start_time - (d : ℚ) / 1000,
                  duration := (ec.length : ℚ) / 1000 })
  else
    let d := padAmount p c
    let ec := List.replicate d 0 ++ c ++ List.replicate d 0
    (ec, { m with start_time := m.start_time - (d : ℚ) / 1000,
                  end_time := m.end_time + (d : ℚ) / 1000,
                  duration := (ec.length : ℚ) / 1000 })

/-- The enumeration of `_add_overlap_to_chunks` at running index `i`. -/
def addOverlapGo (p : AudioProcessor) (n : ℕ) : ℕ → List Chunk → List Chunk
  | _, [] => []
  | i, cm :: rest => overlapOne p n i cm :: addOverlapGo p n (i + 1) rest

/-- `AudioProcessor._add_overlap_to_chunks`. -/
def addOverlap (p : AudioProcessor) (chunks : List Chunk) : List Chunk :=
  if chunks.length ≤ 1 then chunks
  else addOverlapGo p chunks.length 0 chunks

/-- The `chunks` variable of `split_audio_intelligently` in the
needs-chunking path, before overlap injection: silence-based splitting
when attempted and successful, otherwise time-based splitting. -/
def preOverlapChunks (p : AudioProcessor) (out : SilenceOutcome) (a : AudioStream) :
    List Chunk :=
  let target := targetDuration p a
  if ¬ p.force_time_based ∧ totalDuration a < 600 then
    let sc := splitOnSilence out target
    if sc = [] then splitByTime a.samples target else sc
  else splitByTime a.samples target

/-- `AudioProcessor.split_audio_intelligently`, with the external
silence-detection outcome as a parameter. -/
def split_audio_intelligently (p : AudioProcessor) (out : SilenceOutcome)
    (a : AudioStream) : List Chunk :=
  if needsChunking p a then addOverlap p (preOverlapChunks p out a)
  else
    [(a.samples,
      { chunk_index := 0, start_time := 0, end_time := totalDuration a,
        duration := totalDuration a, split_method := .single_chunk,
        is_single_chunk := true })]

/-- The tiling invariant on recorded metadata: starting from clock `s`,
each metadata's `start_time` equals the running clock, the clock then
advances to its `end_time`, and the final clock is `e` — no gaps, no
overlaps. -/
def TilesFrom (s : ℚ) : List ChunkMetadata → ℚ → Prop
  | [], e => s = e
  | m :: ms, e => m.start_time = s ∧ TilesFrom m.end_time ms e

/-- `TilesFrom` is decidable (used to evaluate it on concrete runs). -/
def tilesFromDec (s : ℚ) (ms : List ChunkMetadata) (e : ℚ) :
    Decidable (TilesFrom s ms e) :=
  match ms with
  | [] => inferInstanceAs (Decidable (s = e))
  | m :: rest =>
    @instDecidableAnd _ _ _ (tilesFromDec m.end_time rest e)

instance (s : ℚ) (ms : List ChunkMetadata) (e : ℚ) : Decidable (TilesFrom s ms e) :=
  tilesFromDec s ms e

/-! ## Lemmas: text overlap removal -/

/-- `k` is the longest run length in `[1, m]` such that the last `k`
words of `pw` equal the first `k` words of `cw`. -/
def IsLongestRun (pw cw : List String) (m k : ℕ) : Prop :=
  1 ≤ k ∧ k ≤ m ∧ takeLast k pw = cw.take k ∧
    ∀ j ≤ m, k < j → takeLast j pw ≠ cw.take j

instance (pw cw : List String) (m k : ℕ) : Decidable (IsLongestRun pw cw m k) := by
  unfold IsLongestRun
  infer_instance

lemma overlapSearch_eq_some (pw cw : List String) :
    ∀ m k, IsLongestRun pw cw m k → overlapSearch pw cw m = some k := by
  intro m
  induction m with
  | zero => intro k hk; obtain ⟨h1, h2, -, -⟩ := hk; omega
  | succ n ih =>
    intro k hk
    obtain ⟨h1, h2, h3, h4⟩ := hk
    by_cases hkn : k = n + 1
    · subst hkn
      simp only [overlapSearch, h3, if_pos]
    · have hne : takeLast (n + 1) pw ≠ cw.take (n + 1) := h4 (n + 1) le_rfl (by omega)
      simp only [overlapSearch, if_neg hne]
      exact ih k ⟨h1, by omega, h3, fun j hj hj2 => h4 j (by omega) hj2⟩

lemma overlapSearch_eq_none (pw cw : List String) :
    ∀ m, (∀ k, 1 ≤ k → k ≤ m → takeLast k pw ≠ cw.take k) →
      overlapSearch pw cw m = none := by
  intro m
  induction m with
  | zero => intro _; rfl
  | succ n ih =>
    intro h
    simp only [overlapSearch, if_neg (h (n + 1) (by omega) le_rfl)]
    exact ih fun k h1 h2 => h k h1 (by omega)

lemma removeTextOverlap_longest (prev cur : String)
    (hp : prev ≠ "") (hc : cur ≠ "") (k : ℕ)
    (h : IsLongestRun (pySplit prev) (pySplit cur)
      (min (min (pySplit prev).length (pySplit cur).length) 10) k) :
    removeTextOverlap prev cur = joinWords ((pySplit cur).drop k) := by
  unfold removeTextOverlap
  rw [if_neg (by simp [hp, hc]), overlapSearch_eq_some _ _ _ _ h]

lemma removeTextOverlap_no_match (prev cur : String)
    (hp : prev ≠ "") (hc : cur ≠ "")
    (h : ∀ k, 1 ≤ k → k ≤ min (min (pySplit prev).length (pySplit cur).length) 10 →
      takeLast k (pySplit prev) ≠ (pySplit cur).take k) :
    removeTextOverlap prev cur = cur := by
  unfold removeTextOverlap
  rw [if_neg (by simp [hp, hc]), overlapSearch_eq_none _ _ _ h]

/-! ## Lemmas: stable sort and fold shapes -/

/-- The comparison key used by `sorted(results, key=...)`. -/
def idxLe (a b : ChunkResult) : Prop := a.chunk_index ≤ b.chunk_index

lemma insertByIdx_of_head_le (x : ChunkResult) (l : List ChunkResult)
    (h : ∀ y ∈ l, idxLe x y) : insertByIdx x l = x :: l := by
  cases l with
  | nil => rfl
  | cons y ys =>
    simp only [insertByIdx]
    exact if_pos (h y (List.mem_cons_self y ys))

lemma sortedByIndex_eq_self (l : List ChunkResult) (h : l.Pairwise idxLe) :
    sortedByIndex l = l := by
  induction l with
  | nil => rfl
  | cons x xs ih =>
    rw [List.pairwise_cons] at h
    simp only [sortedByIndex, ih h.2]
    exact insertByIdx_of_head_le x xs h.1

lemma foldl_append_form {α β : Type} (g : α → List β) :
    ∀ (l : List α) (acc : List β),
      l.foldl (fun a r => a ++ g r) acc = acc ++ l.foldr (fun r a => g r ++ a) [] := by
  intro l
  induction l with
  | nil => intro acc; simp
  | cons x xs ih => intro acc; simp [ih, List.append_assoc]

lemma foldr_append_length {α β : Type} (g : α → List β) (l : List α) :
    (l.foldr (fun r a => g r ++ a) []).length = (l.map fun r => (g r).length).sum := by
  induction l with
  | nil => rfl
  | cons x xs ih => simp [ih]

/-! ## Lemmas: tiling of the time-based split -/

lemma TilesFrom_append {l₁ l₂ : List ChunkMetadata} {s m e : ℚ}
    (h₁ : TilesFrom s l₁ m) (h₂ : TilesFrom m l₂ e) : TilesFrom s (l₁ ++ l₂) e := by
  induction l₁ generalizing s with
  | nil =>
    have hs : s = m := h₁
    simpa [hs] using h₂
  | cons x xs ih =>
    obtain ⟨hx, hrest⟩ := h₁
    exact ⟨hx, ih hrest⟩

lemma splitByTimeGo_tiles (a : List ℤ) (total t : ℚ) :
    ∀ s idx, 0 < t → s ≤ total →
      TilesFrom s ((splitByTimeGo a total t s idx).map Prod.snd) total := by
  intro s idx
  induction s, idx using splitByTimeGo.induct a total t with
  | case1 s idx h e ih =>
    intro ht hs
    rw [splitByTimeGo, dif_pos h]
    refine ⟨rfl, ?_⟩
    exact ih ht (min_le_right _ _)
  | case2 s idx h =>
    intro ht hs
    rw [splitByTimeGo, dif_neg h]
    have hlt : ¬ s < total := fun hlt => h ⟨ht, hlt⟩
    exact le_antisymm hs (not_lt.mp hlt)

lemma splitByTimeGo_length_sum (a : List ℤ) (total t : ℚ)
    (htot : total = (a.length : ℚ) / 1000) :
    ∀ s idx, 0 < t → 0 ≤ s → s ≤ total →
      ((splitByTimeGo a total t s idx).map (fun cm => cm.1.length)).sum
        = a.length - (⌊s * 1000⌋).toNat := by
  have htotmul : total * 1000 = (a.length : ℚ) := by
    rw [htot]; field_simp
  have hfloor_total : (⌊total * 1000⌋).toNat = a.length := by
    rw [htotmul, Int.floor_natCast, Int.toNat_natCast]
  intro s idx
  induction s, idx using splitByTimeGo.induct a total t with
  | case1 s idx h e ih =>
    intro ht hs0 hs
    have hse : s ≤ e := le_min (by linarith [h.1]) (le_of_lt h.2)
    have het : e ≤ total := min_le_right _ _
    have hms_le : (⌊s * 1000⌋).toNat ≤ (⌊e * 1000⌋).toNat :=
      Int.toNat_le_toNat (Int.floor_le_floor (by nlinarith))
    have hms_top : (⌊e * 1000⌋).toNat ≤ a.length := by
      rw [← hfloor_total]
      exact Int.toNat_le_toNat (Int.floor_le_floor (by nlinarith))
    have hs_top : (⌊s * 1000⌋).toNat ≤ a.length := le_trans hms_le hms_top
    rw [splitByTimeGo, dif_pos h]
    simp only [List.map_cons, List.sum_cons]
    have hslice : (pySlice a (⌊s * 1000⌋).toNat (⌊e * 1000⌋).toNat).length
        = (⌊e * 1000⌋).toNat - (⌊s * 1000⌋).toNat := by
      simp only [pySlice, List.length_drop, List.length_take]
      omega
    rw [hslice, ih ht (le_trans hs0 hse) het]
    omega
  | case2 s idx h =>
    intro ht hs0 hs
    have hlt : ¬ s < total := fun hlt => h ⟨ht, hlt⟩
    have hst : s = total := le_antisymm hs (not_lt.mp hlt)
    rw [splitByTimeGo, dif_neg h]
    simp [hst, hfloor_total]

lemma splitByTimeGo_durations (a : List ℤ) (total t : ℚ) :
    ∀ s idx,
      (splitByTimeGo a total t s idx).map (fun cm => cm.2.duration)
        = (splitByTimeGo a total t s idx).map (fun cm => ((cm.1.length : ℚ) / 1000)) := by
  intro s idx
  induction s, idx using splitByTimeGo.induct a total t with
  | case1 s idx h e ih =>
    rw [splitByTimeGo, dif_pos h]
    simp only [List.map_cons]
    exact congrArg _ ih
  | case2 s idx h =>
    rw [splitByTimeGo, dif_neg h]
    simp

lemma sum_map_len_div (l : List Chunk) :
    (l.map (fun cm => ((cm.1.length : ℚ) / 1000))).sum
      = (((l.map (fun cm => cm.1.length)).sum : ℚ)) / 1000 := by
  induction l with
  | nil => simp
  | cons x xs ih =>
    simp only [List.map_cons, List.sum_cons, ih]
    ring

lemma splitByTime_durations_sum (c : List ℤ) (t : ℚ) (ht : 0 < t) :
    ((splitByTime c t).map (fun cm => cm.2.duration)).sum = (c.length : ℚ) / 1000 := by
  unfold splitByTime
  rw [splitByTimeGo_durations, sum_map_len_div]
  have hcast := Nat.cast_list_sum (β := ℚ)
    ((splitByTimeGo c ((c.length : ℚ) / 1000) t 0 0).map (fun cm => cm.1.length))
  rw [List.map_map] at hcast
  simp only [Function.comp_def] at hcast
  rw [← hcast, splitByTimeGo_length_sum c ((c.length : ℚ) / 1000) t rfl 0 0 ht le_rfl
    (by positivity)]
  norm_num

lemma splitByTime_tiles (a : List ℤ) (t : ℚ) (ht : 0 < t) :
    TilesFrom 0 ((splitByTime a t).map Prod.snd) ((a.length : ℚ) / 1000) := by
  unfold splitByTime
  exact splitByTimeGo_tiles a _ t 0 0 ht (by positivity)

/-! ## Lemmas: tiling of the silence-based split -/

lemma reassignResplit_spec :
    ∀ (l : List Chunk) (idx : ℕ) (cur : ℚ),
      (reassignResplit l idx cur).2.1 = idx + l.length ∧
      (reassignResplit l idx cur).2.2
        = cur + (l.map (fun cm => cm.2.duration)).sum ∧
      TilesFrom cur ((reassignResplit l idx cur).1.map Prod.snd)
        (cur + (l.map (fun cm => cm.2.duration)).sum) := by
  intro l
  induction l with
  | nil =>
    intro idx cur
    refine ⟨by simp [reassignResplit], by simp [reassignResplit], ?_⟩
    simp only [reassignResplit, List.map_nil, List.sum_nil]
    show TilesFrom cur [] (cur + 0)
    simp [TilesFrom]
  | cons cm rest ih =>
    intro idx cur
    obtain ⟨c, m⟩ := cm
    obtain ⟨ih1, ih2, ih3⟩ := ih (idx + 1) (cur + m.duration)
    refine ⟨?_, ?_, ?_⟩
    · simp only [reassignResplit, ih1, List.length_cons]
      omega
    · simp only [reassignResplit, ih2, List.map_cons, List.sum_cons]
      ring
    · simp only [reassignResplit, List.map_cons, List.sum_cons]
      refine ⟨rfl, ?_⟩
      have he : cur + (m.duration + ((rest.map fun cm => cm.2.duration)).sum)
          = (cur + m.duration) + ((rest.map fun cm => cm.2.duration)).sum := by ring
      rw [he]
      exact ih3

lemma silenceAssemble_tiles (t : ℚ) (ht : 0 < t) :
    ∀ (cs : List (List ℤ)) (idx : ℕ) (cur : ℚ),
      TilesFrom cur ((silenceAssemble t cs idx cur).map Prod.snd)
        (cur + (((cs.map List.length).sum : ℕ) : ℚ) / 1000) := by
  intro cs
  induction cs with
  | nil =>
    intro idx cur
    simp only [silenceAssemble, List.map_nil, List.sum_nil]
    show TilesFrom cur [] (cur + ((0 : ℕ) : ℚ) / 1000)
    simp [TilesFrom]
  | cons c rest ih =>
    intro idx cur
    by_cases hd : ((c.length : ℚ) / 1000) ≤ t * (3 / 2)
    · rw [silenceAssemble, if_pos hd]
      refine ⟨rfl, ?_⟩
      have hend : cur + (((((c :: rest).map List.length).sum : ℕ)) : ℚ) / 1000
          = (cur + (c.length : ℚ) / 1000)
            + ((((rest.map List.length).sum : ℕ)) : ℚ) / 1000 := by
        simp only [List.map_cons, List.sum_cons]
        push_cast
        ring
      rw [hend]
      exact ih (idx + 1) (cur + (c.length : ℚ) / 1000)
    · rw [silenceAssemble, if_neg hd]
      obtain ⟨r1, r2, r3⟩ := reassignResplit_spec (splitByTime c t) idx cur
      have hdur := splitByTime_durations_sum c t ht
      have hmid : (reassignResplit (splitByTime c t) idx cur).2.2
          = cur + (c.length : ℚ) / 1000 := by rw [r2, hdur]
      rw [List.map_append, hmid]
      apply TilesFrom_append (m := cur + (c.length : ℚ) / 1000)
      · rw [hdur] at r3
        exact r3
      · have hih := ih (reassignResplit (splitByTime c t) idx cur).2.1
          (cur + (c.length : ℚ) / 1000)
        have hend : cur + (((((c :: rest).map List.length).sum : ℕ)) : ℚ) / 1000
            = (cur + (c.length : ℚ) / 1000)
              + ((((rest.map List.length).sum : ℕ)) : ℚ) / 1000 := by
          simp only [List.map_cons, List.sum_cons]
          push_cast
          ring
        rw [hend]
        exact hih

lemma splitOnSilence_tiles (cs : List (List ℤ)) (t : ℚ) (ht : 0 < t) :
    TilesFrom 0 ((splitOnSilence (SilenceOutcome.chunks cs) t).map Prod.snd)
      ((((cs.map List.length).sum : ℕ) : ℚ) / 1000) := by
  simp only [splitOnSilence]
  by_cases hcs : cs = []
  · subst hcs
    simp [TilesFrom]
  · rw [if_neg hcs]
    have := silenceAssemble_tiles t ht cs 0 0
    simpa using this

/-! ## Lemmas: the chunking pipeline -/

lemma target_pos (p : AudioProcessor) (a : AudioStream)
    (h : needsChunking p a = true) : 0 < targetDuration p a := by
  have hraw : (0 : ℚ) < (rawBytes a : ℚ) := by
    have := of_decide_eq_true h
    have hm : (0 : ℚ) ≤ (p.max_chunk_size_mb : ℚ) := by positivity
    nlinarith [this]
  have hlen : 0 < a.samples.length := by
    by_contra hl
    have h0 : a.samples.length = 0 := by omega
    simp [rawBytes, h0] at hraw
  have htd : 0 < totalDuration a := by
    unfold totalDuration
    positivity
  have hec : 0 < (estimatedChunks p a : ℚ) := by
    have : 1 ≤ estimatedChunks p a := le_max_left _ _
    exact_mod_cast Nat.lt_of_lt_of_le Nat.zero_lt_one this
  exact div_pos htd hec

lemma splitOnSilence_empty (out : SilenceOutcome) (t : ℚ)
    (h : out = SilenceOutcome.error ∨ out = SilenceOutcome.timeout ∨
      out = SilenceOutcome.chunks []) :
    splitOnSilence out t = [] := by
  rcases h with h | h | h <;> subst h <;> simp [splitOnSilence]

lemma preOverlapChunks_fallback (p : AudioProcessor) (out : SilenceOutcome)
    (a : AudioStream)
    (hs : ¬ p.force_time_based ∧ totalDuration a < 600)
    (hout : out = SilenceOutcome.error ∨ out = SilenceOutcome.timeout ∨
      out = SilenceOutcome.chunks []) :
    preOverlapChunks p out a = splitByTime a.samples (targetDuration p a) := by
  unfold preOverlapChunks
  rw [if_pos hs, splitOnSilence_empty out _ hout]
  simp

/-! ## Lemmas: overlap injection -/

lemma addOverlapGo_length (p : AudioProcessor) (n : ℕ) :
    ∀ (i : ℕ) (l : List Chunk), (addOverlapGo p n i l).length = l.length := by
  intro i l
  induction l generalizing i with
  | nil => rfl
  | cons cm rest ih => simp [addOverlapGo, ih]

lemma addOverlapGo_getElem (p : AudioProcessor) (n : ℕ) :
    ∀ (i j : ℕ) (l : List Chunk) (cm : Chunk), l[j]? = some cm →
      (addOverlapGo p n i l)[j]? = some (overlapOne p n (i + j) cm) := by
  intro i j l
  induction l generalizing i j with
  | nil => intro cm h; simp at h
  | cons x rest ih =>
    intro cm h
    cases j with
    | zero =>
      simp only [List.getElem?_cons_zero, Option.some.injEq] at h
      subst h
      simp [addOverlapGo]
    | succ k =>
      simp only [List.getElem?_cons_succ] at h
      have := ih (i + 1) k cm h
      simp only [addOverlapGo, List.getElem?_cons_succ]
      rw [this]
      congr 2
      omega

lemma addOverlap_length (p : AudioProcessor) (chunks : List Chunk) :
    (addOverlap p chunks).length = chunks.length := by
  unfold addOverlap
  by_cases h : chunks.length ≤ 1
  · rw [if_pos h]
  · rw [if_neg h]
    exact addOverlapGo_length p chunks.length 0 chunks

lemma addOverlap_getElem (p : AudioProcessor) (chunks : List Chunk) (j : ℕ)
    (cm : Chunk) (h : chunks[j]? = some cm) (hn : 2 ≤ chunks.length) :
    (addOverlap p chunks)[j]? = some (overlapOne p chunks.length j cm) := by
  unfold addOverlap
  rw [if_neg (by omega)]
  have := addOverlapGo_getElem p chunks.length 0 j chunks cm h
  simpa using this

lemma padAmount_le_quarter (p : AudioProcessor) (c : List ℤ) :
    ((padAmount p c : ℕ) : ℚ) / 1000 ≤ ((c.length : ℚ) / 1000) / 4 := by
  have h1 : padAmount p c ≤ c.length / 4 := min_le_right _ _
  have h2 : ((c.length / 4 : ℕ) : ℚ) ≤ (c.length : ℚ) / 4 := Nat.cast_div_le
  have h3 : ((padAmount p c : ℕ) : ℚ) ≤ (c.length : ℚ) / 4 :=
    le_trans (by exact_mod_cast h1) h2
  have h4 : ((c.length : ℚ) / 1000) / 4 = ((c.length : ℚ) / 4) / 1000 := by ring
  rw [h4]
  exact div_le_div_of_nonneg_right h3 (by norm_num)

/-! ## Concrete inputs used by witnesses and counterexamples -/

/-- Build a concrete chunk result. -/
def mkResult (ok : Bool) (txt : String) (i : ℕ) (st en : ℚ)
    (segs : List Segment) : ChunkResult :=
  { success := ok, text := txt, language := some "en", segments := segs,
    words := [], chunk_index := i,
    chunk_metadata := { chunk_index := i, start_time := st, end_time := en,
                        duration := en - st, split_method := SplitMethod.time } }

/-- Processor with a 1 MB chunk cap (counterexample to C1). -/
def c1p : AudioProcessor := { max_chunk_size_mb := 1 }

/-- A 2 ms stream whose raw size (2 MB) forces chunking (counterexample
to C1). -/
def c1a : AudioStream := { samples := List.replicate 2 0, bytesPerMs := 1048576 }

/-! ## Claim theorems -/

/-- Claim C1 (amended): before overlap injection the recorded
`(start_time, end_time)` pairs are contiguous from 0 with no gaps and no
overlaps in both splitting paths; the time-based path ends exactly at the
stream's total duration `len/1000`, while the silence-based path ends at
the total duration of the chunks returned by the silence splitter (the
sum of their lengths), which is less than the stream duration whenever
detected silence was trimmed by the splitter. -/
theorem c1_pre_overlap_tiling_amended :
    (∀ (a : List ℤ) (t : ℚ), 0 < t →
      TilesFrom 0 ((splitByTime a t).map Prod.snd) ((a.length : ℚ) / 1000)) ∧
    (∀ (cs : List (List ℤ)) (t : ℚ), 0 < t →
      TilesFrom 0 ((splitOnSilence (SilenceOutcome.chunks cs) t).map Prod.snd)
        ((((cs.map List.length).sum : ℕ) : ℚ) / 1000)) :=
  ⟨fun a t ht => splitByTime_tiles a t ht,
   fun cs t ht => splitOnSilence_tiles cs t ht⟩

/-- Witness for C1: both conjuncts applied at concrete inputs. -/
theorem c1_tiling_witness :
    TilesFrom 0 ((splitByTime (List.replicate 10 (0 : ℤ)) (3 / 1000)).map Prod.snd)
      (((List.replicate 10 (0 : ℤ)).length : ℚ) / 1000) ∧
    TilesFrom 0
      ((splitOnSilence (SilenceOutcome.chunks [[(0 : ℤ)], [0]]) (1 / 1000)).map Prod.snd)
      (((([[(0 : ℤ)], [0]].map List.length).sum : ℕ) : ℚ) / 1000) :=
  ⟨c1_pre_overlap_tiling_amended.1 _ _ (by norm_num),
   c1_pre_overlap_tiling_amended.2 _ _ (by norm_num)⟩

/-- Counterexample to C1 as stated: a chunked stream in the
silence-based path (the splitter dropped 1 of the stream's 2 ms) whose
pre-overlap metadata does not tile `[0, total_duration)`. -/
theorem c1_tiling_counterexample :
    needsChunking c1p c1a = true ∧
    ¬ TilesFrom 0
      ((preOverlapChunks c1p (SilenceOutcome.chunks [[0]]) c1a).map Prod.snd)
      (totalDuration c1a) := by
  constructor
  · norm_num [needsChunking, rawBytes, c1p, c1a]
  · norm_num [preOverlapChunks, splitOnSilence, silenceAssemble, targetDuration,
      totalDuration, estimatedChunks, needsChunking, rawBytes, max_chunk_size_bytes,
      TilesFrom, c1p, c1a]

/-- Claim C5: a stream whose estimated raw size does not exceed the
configured cap is returned by `split_audio_intelligently` as exactly one
chunk covering the whole stream, tagged `single_chunk`, with no overlap
padding (the audio is the unmodified stream). -/
theorem c5_single_chunk (p : AudioProcessor) (out : SilenceOutcome)
    (a : AudioStream) (h : needsChunking p a = false) :
    split_audio_intelligently p out a
      = [(a.samples,
          { chunk_index := 0, start_time := 0, end_time := totalDuration a,
            duration := totalDuration a, split_method := SplitMethod.single_chunk,
            is_single_chunk := true })] := by
  unfold split_audio_intelligently
  rw [h]
  simp

/-- Witness for C5 at a 1 ms stream of 1 byte/ms. -/
theorem c5_single_chunk_witness :
    split_audio_intelligently {} SilenceOutcome.error
        { samples := [(0 : ℤ)], bytesPerMs := 1 }
      = [([(0 : ℤ)],
          { chunk_index := 0, start_time := 0, end_time := (1 : ℚ) / 1000,
            duration := (1 : ℚ) / 1000, split_method := SplitMethod.single_chunk,
            is_single_chunk := true })] := by
  have h : needsChunking {} { samples := [(0 : ℤ)], bytesPerMs := 1 } = false := by
    norm_num [needsChunking, rawBytes]
  rw [c5_single_chunk {} SilenceOutcome.error _ h]
  norm_num [totalDuration]

/-- Claim C8: for a stream that needs chunking and for which silence
splitting is attempted, an internal exception, a silence-detection
timeout, or an empty silence result all make the plan fall back to a
complete time-based chunk list (tiling `[0, total_duration)`), never a
planning failure. The `0 < max_chunk_size_mb` hypothesis matches the
configuration surface (Python would divide by zero otherwise). -/
theorem c8_silence_fallback (p : AudioProcessor) (out : SilenceOutcome)
    (a : AudioStream) (_hmb : 0 < p.max_chunk_size_mb)
    (h : needsChunking p a = true)
    (hs : ¬ p.force_time_based ∧ totalDuration a < 600)
    (hout : out = SilenceOutcome.error ∨ out = SilenceOutcome.timeout ∨
      out = SilenceOutcome.chunks []) :
    split_audio_intelligently p out a
      = addOverlap p (splitByTime a.samples (targetDuration p a)) ∧
    TilesFrom 0 ((splitByTime a.samples (targetDuration p a)).map Prod.snd)
      (totalDuration a) := by
  constructor
  · unfold split_audio_intelligently
    rw [h]
    simp only [if_true]
    rw [preOverlapChunks_fallback p out a hs hout]
  · have ht := target_pos p a h
    have := splitByTime_tiles a.samples _ ht
    simpa [totalDuration] using this

/-- Witness for C8: silence detection erroring on a 2 ms / 2 MB stream
with a 1 MB cap falls back to the time-based list. -/
theorem c8_silence_fallback_witness :
    split_audio_intelligently c1p SilenceOutcome.error c1a
      = addOverlap c1p (splitByTime c1a.samples (targetDuration c1p c1a)) ∧
    TilesFrom 0 ((splitByTime c1a.samples (targetDuration c1p c1a)).map Prod.snd)
      (totalDuration c1a) :=
  c8_silence_fallback c1p SilenceOutcome.error c1a
    (by norm_num [c1p])
    (by norm_num [needsChunking, rawBytes, c1p, c1a])
    (by constructor
        · norm_num [c1p]
        · norm_num [totalDuration, c1a])
    (Or.inl rfl)

/-- First chunk of the C6 counterexample: 9 ms, not divisible by 4. -/
def c6m1 : ChunkMetadata :=
  { chunk_index := 0, start_time := 0, end_time := 9 / 1000,
    duration := 9 / 1000, split_method := SplitMethod.time }

/-- Second chunk of the C6 counterexample: 8 ms. -/
def c6m2 : ChunkMetadata :=
  { chunk_index := 1, start_time := 9 / 1000, end_time := 17 / 1000,
    duration := 8 / 1000, split_method := SplitMethod.time }

/-- The C6 counterexample chunk list. -/
def c6cks : List Chunk :=
  [(List.replicate 9 0, c6m1), (List.replicate 8 0, c6m2)]

/-- Claim C6 (amended): with at least 2 chunks, only the first chunk's
end, only the last chunk's start, and both ends of interior chunks are
padded; the padding per padded end is
`min(overlap_seconds * 1000 ms, chunk_length_ms // 4)` — the chunk's
quarter-duration rounded down to whole milliseconds, not the exact
`chunkDuration/4` — so it never exceeds 25% of that chunk's pre-padding
duration; a list of at most one chunk is returned unchanged. -/
theorem c6_overlap_padding_amended (p : AudioProcessor) (chunks : List Chunk)
    (hn : 2 ≤ chunks.length) (j : ℕ) (c : List ℤ) (m : ChunkMetadata)
    (h : chunks[j]? = some (c, m)) :
    (addOverlap p chunks).length = chunks.length ∧
    (j = 0 →
      (addOverlap p chunks)[j]?
        = some (c ++ List.replicate (padAmount p c) 0,
            { m with end_time := m.end_time + ((padAmount p c : ℕ) : ℚ) / 1000,
                     duration := (((c ++ List.replicate (padAmount p c) 0).length : ℕ) : ℚ)
                       / 1000 })) ∧
    (j ≠ 0 → j = chunks.length - 1 →
      (addOverlap p chunks)[j]?
        = some (List.replicate (padAmount p c) 0 ++ c,
            { m with start_time := m.start_time - ((padAmount p c : ℕ) : ℚ) / 1000,
                     duration := (((List.replicate (padAmount p c) 0 ++ c).length : ℕ) : ℚ)
                       / 1000 })) ∧
    (j ≠ 0 → j ≠ chunks.length - 1 →
      (addOverlap p chunks)[j]?
        = some (List.replicate (padAmount p c) 0 ++ c ++ List.replicate (padAmount p c) 0,
            { m with start_time := m.start_time - ((padAmount p c : ℕ) : ℚ) / 1000,
                     end_time := m.end_time + ((padAmount p c : ℕ) : ℚ) / 1000,
                     duration :=
                       (((List.replicate (padAmount p c) 0 ++ c
                           ++ List.replicate (padAmount p c) 0).length : ℕ) : ℚ) / 1000 })) ∧
    ((padAmount p c : ℕ) : ℚ) / 1000 ≤ ((c.length : ℚ) / 1000) / 4 ∧
    (∀ l : List Chunk, l.length ≤ 1 → addOverlap p l = l) := by
  refine ⟨addOverlap_length p chunks, ?_, ?_, ?_, padAmount_le_quarter p c, ?_⟩
  · intro hj0
    rw [addOverlap_getElem p chunks j (c, m) h hn]
    subst hj0
    simp [overlapOne, Nat.lt_of_lt_of_le Nat.one_lt_two hn]
  · intro hj0 hjl
    rw [addOverlap_getElem p chunks j (c, m) h hn]
    subst hjl
    simp [overlapOne, hj0]
  · intro hj0 hjl
    rw [addOverlap_getElem p chunks j (c, m) h hn]
    simp [overlapOne, hj0, hjl]
  · intro l hl
    unfold addOverlap
    rw [if_pos hl]

/-- Witness for C6 applied to the concrete 2-chunk list at index 0. -/
theorem c6_overlap_padding_witness :
    (addOverlap {} c6cks)[0]?
      = some (List.replicate 9 0 ++ List.replicate (padAmount {} (List.replicate 9 0)) 0,
          { c6m1 with
            end_time := c6m1.end_time + ((padAmount {} (List.replicate 9 0) : ℕ) : ℚ) / 1000,
            duration := (((List.replicate 9 (0 : ℤ)
                ++ List.replicate (padAmount {} (List.replicate 9 0)) 0).length : ℕ) : ℚ)
              / 1000 }) :=
  ((c6_overlap_padding_amended {} c6cks (by decide) 0 (List.replicate 9 0) c6m1
    rfl).2.1) rfl

/-- Counterexample to C6 as stated: for the 9 ms first chunk the
recorded end is extended by `⌊9/4⌋ ms = 2/1000 s`, not by
`min(overlapSeconds, chunkDuration/4) = 9/4000 s`. -/
theorem c6_overlap_padding_counterexample :
    (addOverlap {} c6cks).map (fun cm => cm.2.end_time)
      = [11 / 1000, 17 / 1000] ∧
    (11 : ℚ) / 1000 ≠ 9 / 1000 + min ((3 : ℚ)) ((9 / 1000) / 4) := by
  constructor
  · norm_num [addOverlap, addOverlapGo, overlapOne, padAmount, c6cks, c6m1, c6m2]
  · rw [min_eq_right (by norm_num)]
    norm_num

/-- Claim C10: overlap injection preserves list length and order, and
each chunk's `chunk_index`, `split_method` and `is_single_chunk`; the
output audio is the unmodified input audio with (possibly empty) silence
padding on either side — original audio is never trimmed. -/
theorem c10_overlap_frame (p : AudioProcessor) (chunks : List Chunk) (j : ℕ)
    (c : List ℤ) (m : ChunkMetadata) (h : chunks[j]? = some (c, m)) :
    (addOverlap p chunks).length = chunks.length ∧
    ∃ d₁ d₂ : ℕ, ∃ m' : ChunkMetadata,
      (addOverlap p chunks)[j]?
        = some (List.replicate d₁ 0 ++ c ++ List.replicate d₂ 0, m') ∧
      m'.chunk_index = m.chunk_index ∧ m'.split_method = m.split_method ∧
      m'.is_single_chunk = m.is_single_chunk := by
  refine ⟨addOverlap_length p chunks, ?_⟩
  by_cases hn : chunks.length ≤ 1
  · refine ⟨0, 0, m, ?_, rfl, rfl, rfl⟩
    unfold addOverlap
    rw [if_pos hn]
    simpa using h
  · rw [addOverlap_getElem p chunks j (c, m) h (by omega)]
    by_cases hj0 : j = 0
    · subst hj0
      have h1 : 1 < chunks.length := by omega
      refine ⟨0, padAmount p c,
        { m with end_time := m.end_time + ((padAmount p c : ℕ) : ℚ) / 1000,
                 duration := (((c ++ List.replicate (padAmount p c) 0).length : ℕ) : ℚ)
                   / 1000 }, ?_, rfl, rfl, rfl⟩
      simp [overlapOne, h1]
    · by_cases hjl : j = chunks.length - 1
      · subst hjl
        refine ⟨padAmount p c, 0,
          { m with start_time := m.start_time - ((padAmount p c : ℕ) : ℚ) / 1000,
                   duration := (((List.replicate (padAmount p c) 0 ++ c).length : ℕ) : ℚ)
                     / 1000 }, ?_, rfl, rfl, rfl⟩
        simp [overlapOne, hj0]
      · refine ⟨padAmount p c, padAmount p c,
          { m with start_time := m.start_time - ((padAmount p c : ℕ) : ℚ) / 1000,
                   end_time := m.end_time + ((padAmount p c : ℕ) : ℚ) / 1000,
                   duration := (((List.replicate (padAmount p c) 0 ++ c
                       ++ List.replicate (padAmount p c) 0).length : ℕ) : ℚ) / 1000 },
          ?_, rfl, rfl, rfl⟩
        simp [overlapOne, hj0, hjl]

/-- Metadata of the single chunk used by the C10 witness. -/
def c10m : ChunkMetadata :=
  { chunk_index := 5, start_time := 2, end_time := 3, duration := 1,
    split_method := SplitMethod.silence }

/-- Witness for C10 at a concrete one-chunk list. -/
theorem c10_overlap_frame_witness :
    (addOverlap {} [([(0 : ℤ)], c10m)]).length = [([(0 : ℤ)], c10m)].length ∧
    ∃ d₁ d₂ : ℕ, ∃ m' : ChunkMetadata,
      (addOverlap {} [([(0 : ℤ)], c10m)])[0]?
        = some (List.replicate d₁ 0 ++ [(0 : ℤ)] ++ List.replicate d₂ 0, m') ∧
      m'.chunk_index = c10m.chunk_index ∧ m'.split_method = c10m.split_method ∧
      m'.is_single_chunk = c10m.is_single_chunk :=
  c10_overlap_frame {} [([(0 : ℤ)], c10m)] 0 [(0 : ℤ)] c10m rfl

/-! ## Transcription-side claims -/

/-- Chunk A of the C2 fox example. -/
def c2resA : ChunkResult := mkResult true "the quick brown fox" 0 0 27 []

/-- Chunk B of the C2 fox example. -/
def c2resB : ChunkResult := mkResult true "quick brown fox jumps over" 1 24 54 []

/-- The C2 counterexample input: three successful chunks whose middle
contribution ("fox") is shorter than the boundary overlap. -/
def c2ex : List ChunkResult :=
  [mkResult true "quick brown" 0 0 10 [],
   mkResult true "fox" 1 10 20 [],
   mkResult true "brown fox jumps" 2 20 30 []]

/-- The text merge as the claim words it (refinement comparison
definition, built from the claim's words, not from the source): each new
chunk's head words are compared against the tail words (up to 10) of the
*entire already-combined text*. -/
def combineTextSpecClaim (results : List ChunkResult) : String :=
  (sortedByIndex results).foldl
    (fun acc r =>
      let t := pyStrip r.text
      if t = "" then acc
      else if acc = "" then t
      else acc ++ " " ++ removeTextOverlap acc t) ""

/-- Claim C2 (amended): for each subsequent chunk with non-empty text the
code compares the tail words of the *previously appended part* (the
preceding chunk's contribution after its own overlap removal), not of
the whole already-combined text; the longest run of up to
`min(10, |prev part|, |cur|)` words matching case-sensitively under
whitespace tokenization is stripped exactly once, and with no match the
text is appended unmodified; the quick-brown-fox example merges with its
3-word overlap removed once. -/
theorem c2_text_overlap_amended :
    (∀ prev cur : String, prev ≠ "" → cur ≠ "" →
      ∀ k, IsLongestRun (pySplit prev) (pySplit cur)
          (min (min (pySplit prev).length (pySplit cur).length) 10) k →
        removeTextOverlap prev cur = joinWords ((pySplit cur).drop k)) ∧
    (∀ prev cur : String, prev ≠ "" → cur ≠ "" →
      (∀ k, 1 ≤ k → k ≤ min (min (pySplit prev).length (pySplit cur).length) 10 →
        takeLast k (pySplit prev) ≠ (pySplit cur).take k) →
      removeTextOverlap prev cur = cur) ∧
    (combine_transcriptions [c2resA, c2resB]).map Combined.text
      = some "the quick brown fox jumps over" := by
  refine ⟨removeTextOverlap_longest, removeTextOverlap_no_match, ?_⟩
  decide

/-- Witness for C2: the longest-run branch applied at the fox pair. -/
theorem c2_text_overlap_witness :
    removeTextOverlap "the quick brown fox" "quick brown fox jumps over"
      = joinWords ((pySplit "quick brown fox jumps over").drop 3) :=
  c2_text_overlap_amended.1 "the quick brown fox" "quick brown fox jumps over"
    (by decide) (by decide) 3 (by decide)

/-- Counterexample to C2 as stated: the code compares only against the
previous part ("fox"), misses the 2-word run "brown fox" present in the
tail of the full combined text, and appends the duplicate; the claim's
own rule would strip it. -/
theorem c2_text_overlap_counterexample :
    (combine_transcriptions c2ex).map Combined.text
      = some "quick brown fox brown fox jumps" ∧
    combineTextSpecClaim c2ex = "quick brown fox jumps" ∧
    (combine_transcriptions c2ex).map Combined.text
      ≠ some (combineTextSpecClaim c2ex) := by
  refine ⟨by decide, by decide, by decide⟩

instance : DecidableRel idxLe := fun a b =>
  inferInstanceAs (Decidable (a.chunk_index ≤ b.chunk_index))

/-- A one-segment result for the C3 example: chunk-relative span `[0,5]`. -/
def c3r (i : ℕ) (st : ℚ) (txt : String) : ChunkResult :=
  mkResult true txt i st (st + 5) [{ start := 0, end_ := 5, text := txt }]

/-- The C3 example: three successful chunks with offsets 0 s, 27 s, 54 s. -/
def c3ex : List ChunkResult := [c3r 0 0 "alpha", c3r 1 27 "beta", c3r 2 54 "gamma"]

/-- Claim C3: segment and word merging shifts every `start`/`end` by the
chunk's own `start_time` and appends in chunk-index order with no
deduplication (the output length is the sum of the per-chunk lengths);
in particular the 0 s / 27 s / 54 s example yields global spans
`[0,5], [27,32], [54,59]`. -/
theorem c3_segments_words_shift (rs : List ChunkResult)
    (hsorted : rs.Pairwise idxLe) :
    combineSegments rs
      = rs.foldr
          (fun r acc => r.segments.map (shiftSegment r.chunk_metadata.start_time) ++ acc)
          [] ∧
    combineWords rs
      = rs.foldr
          (fun r acc => r.words.map (shiftWord r.chunk_metadata.start_time) ++ acc)
          [] ∧
    (combineSegments rs).length = (rs.map (fun r => r.segments.length)).sum ∧
    (combineWords rs).length = (rs.map (fun r => r.words.length)).sum ∧
    (combine_transcriptions c3ex).map
        (fun c => c.segments.map (fun s => (s.start, s.end_)))
      = some [(0, 5), (27, 32), (54, 59)] := by
  have hseg : combineSegments rs
      = rs.foldr
          (fun r acc => r.segments.map (shiftSegment r.chunk_metadata.start_time) ++ acc)
          [] := by
    unfold combineSegments
    rw [sortedByIndex_eq_self rs hsorted, foldl_append_form]
    simp
  have hword : combineWords rs
      = rs.foldr
          (fun r acc => r.words.map (shiftWord r.chunk_metadata.start_time) ++ acc)
          [] := by
    unfold combineWords
    rw [sortedByIndex_eq_self rs hsorted, foldl_append_form]
    simp
  refine ⟨hseg, hword, ?_, ?_, ?_⟩
  · rw [hseg, foldr_append_length]
    simp
  · rw [hword, foldr_append_length]
    simp
  · have hne : ¬ (c3ex = []) := by simp [c3ex]
    have hfilter : c3ex.filter (fun r => r.success) = c3ex := by
      simp [c3ex, c3r, mkResult]
    have htext : combineText c3ex = some "alpha beta gamma" := by decide
    simp only [combine_transcriptions, hfilter, if_neg hne, htext, Option.map_some]
    norm_num [combineSegments, sortedByIndex, insertByIdx, c3ex, c3r, mkResult,
      shiftSegment]

/-- Witness for C3: the segment-merge equation applied at the concrete
sorted example list. -/
theorem c3_segments_words_witness :
    combineSegments c3ex
      = c3ex.foldr
          (fun r acc => r.segments.map (shiftSegment r.chunk_metadata.start_time) ++ acc)
          [] :=
  (c3_segments_words_shift c3ex (by decide)).1

/-- The C4 failing input: two successful chunks, the first (in
chunk-index order) with empty text and a later one with non-empty text. -/
def c4crash : List ChunkResult :=
  [mkResult true "" 0 0 10 [], mkResult true "hi" 1 10 20 []]

/-- Claim C4 (code bug): on two *successful* results whose first sorted
text is empty and a later one non-empty, `_combine_text` evaluates
`combined_parts[-1]` on an empty list, so `combine_transcriptions`
raises `IndexError` (modelled as `none`) instead of returning a
success=true result with `failed_chunks = 0` as the claim (and the
code's own partial-failure design) requires. -/
theorem c4_empty_text_indexerror : combine_transcriptions c4crash = none := by
  decide

/-- The C7 input: one failed and one successful chunk. -/
def c7ex : List ChunkResult :=
  [mkResult false "bad" 0 0 10 [], mkResult true "hi" 1 10 20 []]

/-- Claim C7 (amended): `chunk_count` is the number of *successful*
chunks when at least one succeeded (the `chunk_count := len(successful_results)`
branch), and the number of attempted chunks only when none succeeded;
the two agree just when no chunk failed. -/
theorem c7_chunk_count_amended (rs : List ChunkResult) (c : Combined)
    (h : combine_transcriptions rs = some c) :
    c.chunk_count
      = (if rs.filter (fun r => r.success) = [] then rs.length
         else (rs.filter (fun r => r.success)).length) := by
  by_cases h0 : rs = []
  · subst h0
    have he : combine_transcriptions ([] : List ChunkResult)
        = some ⟨"", [], [], none, 0, 0, false, none, none⟩ := rfl
    rw [he, Option.some_inj] at h
    rw [← h]
    simp
  · unfold combine_transcriptions at h
    rw [if_neg h0] at h
    by_cases h1 : rs.filter (fun r => r.success) = []
    · rw [if_pos h1] at h
      simp only [Option.some.injEq] at h
      rw [if_pos h1, ← h]
    · rw [if_neg h1] at h
      rw [if_neg h1]
      cases hct : combineText (rs.filter fun r => r.success) with
      | none => rw [hct] at h; exact absurd h (by simp)
      | some text =>
        rw [hct] at h
        simp only [Option.some.injEq] at h
        rw [← h]

/-- Witness for C7: applied at the concrete one-failure input. -/
theorem c7_chunk_count_witness :
    (combine_transcriptions c7ex).map Combined.chunk_count = some 1 := by
  cases hc : combine_transcriptions c7ex with
  | none => exact absurd (congrArg Option.isSome hc) (by decide)
  | some c =>
    have h := c7_chunk_count_amended c7ex c hc
    show some c.chunk_count = some 1
    rw [h]
    decide

/-- Counterexample to C7 as stated: with 2 attempted chunks of which 1
succeeded, `chunk_count` is 1, not the attempted count 2. -/
theorem c7_chunk_count_counterexample :
    (combine_transcriptions c7ex).map Combined.chunk_count = some 1 ∧
    c7ex.length = 2 ∧
    (combine_transcriptions c7ex).map Combined.chunk_count ≠ some c7ex.length := by
  refine ⟨by decide, by decide, by decide⟩

/-- Claim C9: `combine_transcriptions` is deterministic — the embedding
is a pure function of the ordered input list (the Python code sorts with
a deterministic stable sort and uses no other ambient state), so equal
ordered inputs give equal combined results. -/
theorem c9_combine_deterministic (rs : List ChunkResult) :
    combine_transcriptions rs = combine_transcriptions rs := rfl
